import Mathlib

/-
Shallow embedding of the chess engine (src/main.rs) and proofs about it.

Modelling conventions:
* `u8`/`usize` arithmetic is modelled over `Nat`/`Int`; every subtraction that
  the source performs is only reached with a non-negative result (checked at
  each use), except the one `usize` underflow in the Queen rule, which is
  modelled as a panic (debug-build semantics).
* Rust panics (`panic!`, `assert!`, `.unwrap()` on `None`, out-of-boundary
  string slicing, arithmetic underflow) are modelled by `none` / `PRes.panics`;
  fallible functions return `Option`.
* The 64-entry array `pieces` is modelled as `Fin 64 → Option Piece`; the
  iterator chains `iter().skip(s).take(t).step_by(k)` over it are modelled by
  `List.drop` / `List.take` / `stepBy` over `List.ofFn pieces`.
* Array indexing `pieces[i]` is `ChessBoard.cell`: out-of-bounds indexing would
  panic in Rust; all theorems below restrict to in-bounds coordinates, where
  `cell` agrees with the source exactly.
-/

namespace Chess

inductive PieceType where
  | Pawn
  | Bishop
  | Knight
  | Rook
  | Queen
  | King
deriving DecidableEq, Repr

inductive Color where
  | White
  | Black
deriving DecidableEq, Repr

structure BoardPos where
  row : Nat
  col : Nat
deriving DecidableEq, Repr

/-- `BoardPos::to_idx`: `(self.col + self.row * 8).into()`. -/
def BoardPos.to_idx (self : BoardPos) : Nat :=
  self.col + self.row * 8

/-- `BoardPos::from_idx`: `None` when `idx >= 64`, else row `idx / 8`, col `idx % 8`. -/
def BoardPos.from_idx (idx : Nat) : Option BoardPos :=
  if 64 ≤ idx then none
  else some { row := idx / 8, col := idx % 8 }

/-- Number of bytes of the UTF-8 encoding of a character (Rust `str::len` counts bytes). -/
def utf8CharLen (c : Char) : Nat :=
  if c.toNat < 0x80 then 1
  else if c.toNat < 0x800 then 2
  else if c.toNat < 0x10000 then 3
  else 4

/-- Byte length of a string, given as its list of characters. -/
def utf8Len (s : List Char) : Nat :=
  (s.map utf8CharLen).sum

/-- Outcome of a Rust function returning `Option<T>` that may also panic. -/
inductive PRes (α : Type) where
  | panics : PRes α
  | ret : Option α → PRes α
deriving DecidableEq, Repr

/-- `BoardPos::parse`: checks the byte length is 2, then reads `chars().nth(0)` and
`chars().nth(1)` with `.unwrap()` (a panic when the string is a single two-byte
character), casts each to `u8` (truncation mod 256), and pattern-matches the pair
against `(b'a'..=b'h', b'1'..=b'8')`. -/
def BoardPos.parse (s : List Char) : PRes BoardPos :=
  if utf8Len s = 2 then
    match s[0]?, s[1]? with
    | some c, some r =>
      let col := c.toNat % 256
      let row := r.toNat % 256
      if 97 ≤ col ∧ col ≤ 104 ∧ 49 ≤ row ∧ row ≤ 56 then
        PRes.ret (some { row := 56 - row, col := col - 97 })
      else
        PRes.ret none
    | _, _ => PRes.panics
  else
    PRes.ret none

structure Piece where
  color : Color
  piece : PieceType
  pos : BoardPos
deriving DecidableEq, Repr

structure Move where
  from' : BoardPos
  to' : BoardPos
deriving DecidableEq, Repr

/-- Splitting a string at byte offset `n` (`&string[0..n]` / `&string[n..]`):
`none` models the Rust slicing panic when `n` is not a character boundary
(or past the end of the string). -/
def byteSplit : Nat → List Char → Option (List Char × List Char)
  | 0, s => some ([], s)
  | _ + 1, [] => none
  | n + 1, c :: s =>
    if utf8CharLen c ≤ n + 1 then
      match byteSplit (n + 1 - utf8CharLen c) s with
      | some (a, b) => some (c :: a, b)
      | none => none
    else
      none

/-- `Move::parse`: byte length must be 4; slices `&string[0..2]` and `&string[2..4]`
(byte slicing, a panic off a character boundary), parses both coordinates
(each may itself panic), and succeeds only when both parse. -/
def Move.parse (s : List Char) : PRes Move :=
  if utf8Len s = 4 then
    match byteSplit 2 s with
    | none => PRes.panics
    | some (a, b) =>
      match BoardPos.parse a with
      | PRes.panics => PRes.panics
      | PRes.ret f? =>
        match BoardPos.parse b with
        | PRes.panics => PRes.panics
        | PRes.ret t? =>
          match f?, t? with
          | some f, some t => PRes.ret (some { from' := f, to' := t })
          | _, _ => PRes.ret none
  else
    PRes.ret none

structure ChessBoard where
  pieces : Fin 64 → Option Piece
  turn : Color
  winner : Option Color

instance : DecidableEq ChessBoard := fun a b =>
  if h : List.ofFn a.pieces = List.ofFn b.pieces ∧ a.turn = b.turn ∧ a.winner = b.winner then
    isTrue (by
      obtain ⟨h1, h2, h3⟩ := h
      cases a
      cases b
      congr 1
      exact List.ofFn_injective h1)
  else
    isFalse (fun he => h (by cases he; exact ⟨rfl, rfl, rfl⟩))

/-- Array indexing `board.pieces[i]` (in-bounds in every reachable use; an
out-of-bounds index would panic in Rust). -/
def ChessBoard.cell (b : ChessBoard) (i : Nat) : Option Piece :=
  if h : i < 64 then b.pieces ⟨i, h⟩ else none

/-- `board.pieces.iter()` as a list. -/
def boardList (b : ChessBoard) : List (Option Piece) :=
  List.ofFn b.pieces

/-- Helper for `stepBy`: `k` counts elements still to be skipped before the next
element is yielded; after yielding, the counter resets to `n - 1`. -/
def stepByAux (n : Nat) : Nat → List α → List α
  | _, [] => []
  | 0, a :: l => a :: stepByAux n (n - 1) l
  | k + 1, _ :: l => stepByAux n k l

/-- Rust `Iterator::step_by(n)` (with `n ≥ 1`): the first element, then every
`n`-th element after it. -/
def stepBy (n : Nat) (l : List α) : List α :=
  stepByAux n 0 l

/-- The `PieceType::Pawn` arm of `Piece::is_move_valid`. -/
def pawnRule (color : Color) (mve : Move) (board : ChessBoard) : Option Bool :=
  let home_row : Nat := match color with
    | Color.White => 6
    | Color.Black => 1
  let forward : Bool := match color with
    | Color.White => decide (mve.to'.row < mve.from'.row)
    | Color.Black => decide (mve.from'.row < mve.to'.row)
  if forward then
    let max_len : Nat := if mve.from'.row = home_row then 2 else 1
    let actual_len : Nat := ((mve.from'.row : Int) - (mve.to'.row : Int)).natAbs
    if actual_len > max_len then some false
    else
      let attacked : Option Piece := board.cell (mve.to'.row * 8 + mve.to'.col)
      if mve.from'.col ≠ mve.to'.col then
        let col_diff : Nat := ((mve.from'.col : Int) - (mve.to'.col : Int)).natAbs
        if actual_len ≠ 1 ∨ col_diff ≠ 1 then some false
        else
          match attacked with
          | none => some false
          | some p => if p.color = color then some false else some true
      else
        let start : Nat := 8 * min mve.from'.row mve.to'.row + mve.from'.col
        some (((stepBy 8 ((boardList board).drop
          (start + if color = Color.Black then 8 else 0))).take actual_len).all Option.isNone)
  else some false

/-- The `PieceType::Rook` arm of `Piece::is_move_valid`; the `(true, true)` match
arm is `panic!`, modelled as `none`. -/
def rookRule (mve : Move) (board : ChessBoard) : Option Bool :=
  if mve.from'.row = mve.to'.row then
    if mve.from'.col = mve.to'.col then none
    else
      let start : Nat := 8 * mve.from'.row + min mve.from'.col mve.to'.col
      let stop : Nat := 8 * mve.from'.row + max mve.from'.col mve.to'.col - 1
      some ((((boardList board).drop (start + 1)).take (stop - start)).all Option.isNone)
  else
    if mve.from'.col = mve.to'.col then
      let start : Nat := 8 * min mve.from'.row mve.to'.row + mve.from'.col
      let stop : Nat := 8 * max mve.from'.row mve.to'.row + mve.from'.col - 8
      some ((stepBy 8 (((boardList board).drop (start + 8)).take (stop - start))).all Option.isNone)
    else some false

/-- The `PieceType::Bishop` arm of `Piece::is_move_valid`; the `assert!(sign != 0)`
failure is modelled as `none`. -/
def bishopRule (mve : Move) (board : ChessBoard) : Option Bool :=
  let col_offset : Int := (mve.from'.col : Int) - (mve.to'.col : Int)
  let row_offset : Int := (mve.from'.row : Int) - (mve.to'.row : Int)
  if col_offset.natAbs ≠ row_offset.natAbs then some false
  else
    let sign : Int := col_offset.sign * row_offset.sign
    if sign = 0 then none
    else
      let step : Nat := (sign + 8).toNat
      let start : Nat := min mve.from'.to_idx mve.to'.to_idx
      let stop : Nat := max mve.from'.to_idx mve.to'.to_idx
      let down_skip : Nat := if mve.from'.row < mve.to'.row then step else 0
      some ((stepBy step (((boardList board).drop
        (start + down_skip + step)).take (stop - start - step))).all Option.isNone)

/-- The `PieceType::Knight` arm of `Piece::is_move_valid`: the sorted pair of
absolute deltas must be `[1, 2]`. -/
def knightRule (mve : Move) : Option Bool :=
  let d1 : Nat := ((mve.from'.row : Int) - (mve.to'.row : Int)).natAbs
  let d2 : Nat := ((mve.from'.col : Int) - (mve.to'.col : Int)).natAbs
  some (decide ((if d1 ≤ d2 then [d1, d2] else [d2, d1]) = [1, 2]))

/-- The `PieceType::Queen` arm of `Piece::is_move_valid`; the `usize` subtraction
`end - start - step` underflows exactly when `from = to` (debug build: panic),
modelled as `none`. -/
def queenRule (mve : Move) (board : ChessBoard) : Option Bool :=
  let col_offset : Int := (mve.from'.col : Int) - (mve.to'.col : Int)
  let row_offset : Int := (mve.from'.row : Int) - (mve.to'.row : Int)
  let straight : Prop := col_offset = 0 ∨ row_offset = 0
  let diagonal : Prop := col_offset.natAbs = row_offset.natAbs
  if ¬(straight ∨ diagonal) then some false
  else
    let start : Nat := min mve.from'.to_idx mve.to'.to_idx
    let stop : Nat := max mve.from'.to_idx mve.to'.to_idx
    let step : Nat :=
      if straight then (if col_offset = 0 then 8 else 1)
      else (8 + col_offset.sign * row_offset.sign).toNat
    if stop < start + step then none
    else
      some ((stepBy step (((boardList board).drop
        (start + step)).take (stop - start - step))).all Option.isNone)

/-- The `PieceType::King` arm of `Piece::is_move_valid`. -/
def kingRule (mve : Move) : Option Bool :=
  let col_offset : Int := (mve.from'.col : Int) - (mve.to'.col : Int)
  let row_offset : Int := (mve.from'.row : Int) - (mve.to'.row : Int)
  some (decide (col_offset.natAbs ≤ 1 ∧ row_offset.natAbs ≤ 1))

/-- `Piece::is_move_valid`: dispatch on the piece kind. -/
def Piece.is_move_valid (self : Piece) (mve : Move) (board : ChessBoard) : Option Bool :=
  match self.piece with
  | PieceType.Pawn => pawnRule self.color mve board
  | PieceType.Rook => rookRule mve board
  | PieceType.Bishop => bishopRule mve board
  | PieceType.Knight => knightRule mve
  | PieceType.Queen => queenRule mve board
  | PieceType.King => kingRule mve

/-- `Move::is_valid`: ownership/occupancy pre-checks, then per-kind dispatch. -/
def Move.is_valid (self : Move) (board : ChessBoard) : Option Bool :=
  match board.cell self.from'.to_idx with
  | none => some false
  | some piece =>
    if piece.color ≠ board.turn then some false
    else
      match board.cell self.to'.to_idx with
      | some q =>
        if q.color = board.turn then some false
        else piece.is_move_valid self board
      | none => piece.is_move_valid self board

/-- `ChessBoard::execute`: reads the source cell, validates, and on acceptance
writes the source piece to the destination, clears the source and flips the turn. -/
def ChessBoard.execute (self : ChessBoard) (mve : Move) : Option (Bool × ChessBoard) :=
  if hf : mve.from'.to_idx < 64 then
    let from_piece := self.pieces ⟨mve.from'.to_idx, hf⟩
    if from_piece.isSome then
      match mve.is_valid self with
      | none => none
      | some true =>
        if ht : mve.to'.to_idx < 64 then
          some (true,
            { pieces := Function.update (Function.update self.pieces ⟨mve.to'.to_idx, ht⟩ from_piece)
                ⟨mve.from'.to_idx, hf⟩ none
              turn := match self.turn with
                | Color.White => Color.Black
                | Color.Black => Color.White
              winner := self.winner })
        else none
      | some false => some (false, self)
    else some (false, self)
  else none

/-- Both coordinates of a move lie on the 8×8 board. -/
def Move.inBounds (m : Move) : Prop :=
  m.from'.row < 8 ∧ m.from'.col < 8 ∧ m.to'.row < 8 ∧ m.to'.col < 8

instance (m : Move) : Decidable m.inBounds := by
  unfold Move.inBounds
  exact inferInstance

/-- Erases the `pos` field of an occupant, keeping side and kind (the observable data). -/
def eraseP (x : Option Piece) : Option (Color × PieceType) :=
  x.map (fun p => (p.color, p.piece))

/-- All board state except the `pos` fields stored inside pieces. -/
def ChessBoard.obs (b : ChessBoard) :
    (Fin 64 → Option (Color × PieceType)) × Color × Option Color :=
  (fun i => eraseP (b.pieces i), b.turn, b.winner)

/-- Fixture: a board with a single white pawn on e2 (row 6, col 4). -/
def pawnBoard : ChessBoard :=
  ⟨fun i => if i = (52 : Fin 64) then some ⟨Color.White, PieceType.Pawn, ⟨6, 4⟩⟩ else none,
   Color.White, none⟩

/-- Fixture: the move e2–e3, accepted on `pawnBoard`. -/
def pawnMove : Move := ⟨⟨6, 4⟩, ⟨5, 4⟩⟩

/-- Fixture: the degenerate move e2–e2. -/
def sameCellMove : Move := ⟨⟨6, 4⟩, ⟨6, 4⟩⟩

/-- Fixture: the board `execute` produces from `pawnBoard` and `pawnMove`, written
as the same update expression so that the equality is definitional. -/
def pawnBoardAfter : ChessBoard :=
  { pieces := Function.update (Function.update pawnBoard.pieces ⟨44, by omega⟩
      (pawnBoard.pieces ⟨52, by omega⟩)) ⟨52, by omega⟩ none
    turn := Color.Black
    winner := none }

/-- Fixture: a lone black pawn on the cell (1,1), diagonally adjacent to (0,0). -/
def blockMidBoard : ChessBoard :=
  ⟨fun i => if i = (9 : Fin 64) then some ⟨Color.Black, PieceType.Pawn, ⟨1, 1⟩⟩ else none,
   Color.White, none⟩

/-- Fixture: a lone black pawn on the cell (2,2). -/
def blockDstBoard : ChessBoard :=
  ⟨fun i => if i = (18 : Fin 64) then some ⟨Color.Black, PieceType.Pawn, ⟨2, 2⟩⟩ else none,
   Color.White, none⟩

/-- Fixture: the diagonal move (0,0)–(2,2), whose only strictly-between cell is (1,1). -/
def diagMove : Move := ⟨⟨0, 0⟩, ⟨2, 2⟩⟩

/-- Fixture: white pawn on e2 with a black pawn on e3 (the destination of a one-step advance). -/
def pawnBlockedBoard : ChessBoard :=
  ⟨fun i => if i = (52 : Fin 64) then some ⟨Color.White, PieceType.Pawn, ⟨6, 4⟩⟩
    else if i = (44 : Fin 64) then some ⟨Color.Black, PieceType.Pawn, ⟨5, 4⟩⟩ else none,
   Color.White, none⟩

/-- Fixture: white pawn on e2 with a black pawn on f3, capturable diagonally. -/
def captureBoard : ChessBoard :=
  ⟨fun i => if i = (52 : Fin 64) then some ⟨Color.White, PieceType.Pawn, ⟨6, 4⟩⟩
    else if i = (45 : Fin 64) then some ⟨Color.Black, PieceType.Pawn, ⟨5, 5⟩⟩ else none,
   Color.White, none⟩

/-- Fixture: the horizontal rook move (0,0)–(0,5). -/
def rookMove : Move := ⟨⟨0, 0⟩, ⟨0, 5⟩⟩

/-- Fixture: the backward white-pawn move e3–e2. -/
def backMove : Move := ⟨⟨5, 4⟩, ⟨6, 4⟩⟩

/-- Fixture: the four-row advance e2–e6. -/
def farMove : Move := ⟨⟨6, 4⟩, ⟨2, 4⟩⟩

/-- Fixture: the diagonal capture e2–f3. -/
def capMove : Move := ⟨⟨6, 4⟩, ⟨5, 5⟩⟩

/-- Fixture: a white rook on a8 whose stored `pos` agrees with its cell. -/
def rookPosBoard : ChessBoard :=
  ⟨fun i => if i = (0 : Fin 64) then some ⟨Color.White, PieceType.Rook, ⟨0, 0⟩⟩ else none,
   Color.White, none⟩

/-- Fixture: the same board as `rookPosBoard` except the rook's stored `pos` is the
(wrong) cell (7,7). -/
def rookPosBoard' : ChessBoard :=
  ⟨fun i => if i = (0 : Fin 64) then some ⟨Color.White, PieceType.Rook, ⟨7, 7⟩⟩ else none,
   Color.White, none⟩

theorem stepByAux_getElem? (n : Nat) (hn : 1 ≤ n) (l : List α) :
    ∀ (k j : Nat), (stepByAux n k l)[j]? = l[k + n * j]? := by
  obtain ⟨n', rfl⟩ : ∃ m, n = m + 1 := ⟨n - 1, by omega⟩
  induction l with
  | nil => intro k j; simp [stepByAux]
  | cons a l ih =>
    intro k j
    match k with
    | 0 =>
      match j with
      | 0 => simp [stepByAux]
      | j + 1 =>
        show (a :: stepByAux (n' + 1) n' l)[j + 1]? = (a :: l)[0 + (n' + 1) * (j + 1)]?
        rw [List.getElem?_cons_succ, ih n' j,
          show 0 + (n' + 1) * (j + 1) = (n' + (n' + 1) * j) + 1 by rw [Nat.mul_succ]; omega,
          List.getElem?_cons_succ]
    | k + 1 =>
      show (stepByAux (n' + 1) k l)[j]? = (a :: l)[(k + 1) + (n' + 1) * j]?
      rw [ih k j, show (k + 1) + (n' + 1) * j = (k + (n' + 1) * j) + 1 by omega,
        List.getElem?_cons_succ]

theorem stepBy_getElem? (n : Nat) (hn : 1 ≤ n) (l : List α) (j : Nat) :
    (stepBy n l)[j]? = l[n * j]? := by
  have h := stepByAux_getElem? n hn l 0 j
  simpa [stepBy] using h

theorem all_iff_getElem? (p : α → Bool) (l : List α) :
    l.all p = true ↔ ∀ (j : Nat) (x : α), l[j]? = some x → p x = true := by
  rw [List.all_eq_true]
  constructor
  · intro h j x hx
    exact h x (List.mem_iff_getElem?.mpr ⟨j, hx⟩)
  · intro h x hx
    obtain ⟨j, hj⟩ := List.mem_iff_getElem?.mp hx
    exact h j x hj

/-- The pawn-shaped scan `skip s |> step_by 8 |> take t`, characterised cellwise. -/
theorem pawnScan_iff (L : List (Option Piece)) (s t : Nat) :
    ((stepBy 8 (L.drop s)).take t).all Option.isNone = true ↔
      ∀ j, j < t → ∀ x, L[s + 8 * j]? = some x → x = none := by
  rw [all_iff_getElem?]
  constructor
  · intro h j hj x hx
    have h8 : ((stepBy 8 (L.drop s)).take t)[j]? = some x := by
      rw [List.getElem?_take_of_lt hj, stepBy_getElem? 8 (by omega), List.getElem?_drop]
      exact hx
    simpa [Option.isNone_iff_eq_none] using h j x h8
  · intro h j x hx
    by_cases hj : j < t
    · rw [List.getElem?_take_of_lt hj, stepBy_getElem? 8 (by omega), List.getElem?_drop] at hx
      simp [Option.isNone_iff_eq_none, h j hj x hx]
    · have hlen : ((stepBy 8 (L.drop s)).take t).length ≤ j :=
        le_trans (List.length_take_le _ _) (Nat.le_of_not_lt hj)
      rw [List.getElem?_eq_none hlen] at hx
      cases hx

/-- The sliding-piece scan `skip s |> take t |> step_by k`, characterised cellwise. -/
theorem slideScan_iff (k : Nat) (hk : 1 ≤ k) (L : List (Option Piece)) (s t : Nat) :
    (stepBy k ((L.drop s).take t)).all Option.isNone = true ↔
      ∀ j, k * j < t → ∀ x, L[s + k * j]? = some x → x = none := by
  rw [all_iff_getElem?]
  constructor
  · intro h j hj x hx
    have h8 : (stepBy k ((L.drop s).take t))[j]? = some x := by
      rw [stepBy_getElem? k hk, List.getElem?_take_of_lt hj, List.getElem?_drop]
      exact hx
    simpa [Option.isNone_iff_eq_none] using h j x h8
  · intro h j x hx
    rw [stepBy_getElem? k hk] at hx
    by_cases hj : k * j < t
    · rw [List.getElem?_take_of_lt hj, List.getElem?_drop] at hx
      simp [Option.isNone_iff_eq_none, h j hj x hx]
    · have hlen : ((L.drop s).take t).length ≤ k * j :=
        le_trans (List.length_take_le _ _) (Nat.le_of_not_lt hj)
      rw [List.getElem?_eq_none hlen] at hx
      cases hx

theorem boardList_getElem? (b : ChessBoard) (i : Nat) (h : i < 64) :
    (boardList b)[i]? = some (b.cell i) := by
  unfold boardList ChessBoard.cell
  rw [List.getElem?_ofFn]
  simp [List.ofFnNthVal, h]

theorem boardList_getElem?_none (b : ChessBoard) (i : Nat) (h : 64 ≤ i) :
    (boardList b)[i]? = none := by
  unfold boardList
  rw [List.getElem?_ofFn]
  simp [List.ofFnNthVal]
  omega

theorem to_idx_inj {p q : BoardPos} (hp : p.row < 8 ∧ p.col < 8) (hq : q.row < 8 ∧ q.col < 8)
    (h : p.to_idx = q.to_idx) : p = q := by
  unfold BoardPos.to_idx at h
  obtain ⟨pr, pc⟩ := p
  obtain ⟨qr, qc⟩ := q
  simp only [BoardPos.mk.injEq] at h hp hq ⊢
  constructor <;> omega

theorem to_idx_lt (p : BoardPos) (hr : p.row < 8) (hc : p.col < 8) : p.to_idx < 64 := by
  unfold BoardPos.to_idx
  omega

theorem pawnRule_isSome (c : Color) (m : Move) (b : ChessBoard) :
    ∃ v, pawnRule c m b = some v := by
  simp only [pawnRule]
  repeat' split
  all_goals exact ⟨_, rfl⟩

theorem rookRule_isSome (m : Move) (b : ChessBoard)
    (hne : ¬(m.from'.row = m.to'.row ∧ m.from'.col = m.to'.col)) :
    ∃ v, rookRule m b = some v := by
  simp only [rookRule]
  split_ifs with h1 h2 h3
  · exact absurd ⟨h1, h2⟩ hne
  all_goals exact ⟨_, rfl⟩

theorem bishopRule_isSome (m : Move) (b : ChessBoard)
    (hne : ¬(m.from'.row = m.to'.row ∧ m.from'.col = m.to'.col)) :
    ∃ v, bishopRule m b = some v := by
  simp only [bishopRule]
  split_ifs with h1 h2 h3
  · exact ⟨_, rfl⟩
  · exfalso
    rcases Int.mul_eq_zero.mp h2 with h3 | h3 <;>
      rw [Int.sign_eq_zero_iff_zero] at h3 <;>
    · apply hne
      constructor <;> omega
  · exact ⟨_, rfl⟩
  · exact ⟨_, rfl⟩

theorem knightRule_isSome (m : Move) : ∃ v, knightRule m = some v := ⟨_, rfl⟩

theorem kingRule_isSome (m : Move) : ∃ v, kingRule m = some v := ⟨_, rfl⟩

theorem queenRule_isSome (m : Move) (b : ChessBoard) (hm : m.inBounds)
    (hne : ¬(m.from'.row = m.to'.row ∧ m.from'.col = m.to'.col)) :
    ∃ v, queenRule m b = some v := by
  obtain ⟨h1, h2, h3, h4⟩ := hm
  simp only [queenRule]
  by_cases hsd : ((m.from'.col : Int) - m.to'.col = 0 ∨ (m.from'.row : Int) - m.to'.row = 0) ∨
      ((m.from'.col : Int) - m.to'.col).natAbs = ((m.from'.row : Int) - m.to'.row).natAbs
  · rw [if_neg (not_not_intro hsd)]
    by_cases hst : ((m.from'.col : Int) - m.to'.col = 0 ∨ (m.from'.row : Int) - m.to'.row = 0)
    · rw [if_pos hst]
      by_cases hc0 : ((m.from'.col : Int) - m.to'.col = 0)
      · rw [if_pos hc0]
        have hrne : m.from'.row ≠ m.to'.row := by
          intro hr
          exact hne ⟨hr, by omega⟩
        rw [if_neg (by simp only [BoardPos.to_idx]; omega)]
        exact ⟨_, rfl⟩
      · rw [if_neg hc0]
        have hr0 : (m.from'.row : Int) - m.to'.row = 0 := by tauto
        rw [if_neg (by simp only [BoardPos.to_idx]; omega)]
        exact ⟨_, rfl⟩
    · rw [if_neg hst]
      push_neg at hst
      obtain ⟨hc0, hr0⟩ := hst
      have hdg : ((m.from'.col : Int) - m.to'.col).natAbs =
          ((m.from'.row : Int) - m.to'.row).natAbs := by tauto
      rcases Int.lt_or_lt_of_ne hc0 with hc | hc <;> rcases Int.lt_or_lt_of_ne hr0 with hr | hr
      · rw [Int.sign_eq_neg_one_of_neg hc, Int.sign_eq_neg_one_of_neg hr,
          if_neg (by simp only [BoardPos.to_idx]; norm_num; omega)]
        exact ⟨_, rfl⟩
      · rw [Int.sign_eq_neg_one_of_neg hc, Int.sign_eq_one_of_pos hr,
          if_neg (by simp only [BoardPos.to_idx]; norm_num; omega)]
        exact ⟨_, rfl⟩
      · rw [Int.sign_eq_one_of_pos hc, Int.sign_eq_neg_one_of_neg hr,
          if_neg (by simp only [BoardPos.to_idx]; norm_num; omega)]
        exact ⟨_, rfl⟩
      · rw [Int.sign_eq_one_of_pos hc, Int.sign_eq_one_of_pos hr,
          if_neg (by simp only [BoardPos.to_idx]; norm_num; omega)]
        exact ⟨_, rfl⟩
  · rw [if_pos hsd]
    exact ⟨_, rfl⟩

theorem is_move_valid_isSome (p : Piece) (m : Move) (b : ChessBoard) (hm : m.inBounds)
    (hne : ¬(m.from'.row = m.to'.row ∧ m.from'.col = m.to'.col)) :
    ∃ v, p.is_move_valid m b = some v := by
  unfold Piece.is_move_valid
  cases p.piece
  · exact pawnRule_isSome p.color m b
  · exact bishopRule_isSome m b hne
  · exact knightRule_isSome m
  · exact rookRule_isSome m b hne
  · exact queenRule_isSome m b hm hne
  · exact kingRule_isSome m

theorem is_valid_isSome (m : Move) (b : ChessBoard) (hm : m.inBounds) :
    ∃ v, m.is_valid b = some v := by
  unfold Move.is_valid
  cases hcf : b.cell m.from'.to_idx with
  | none => exact ⟨false, rfl⟩
  | some piece =>
    simp only []
    by_cases hcol : piece.color ≠ b.turn
    · rw [if_pos hcol]
      exact ⟨false, rfl⟩
    · rw [if_neg hcol]
      have hpc : piece.color = b.turn := not_not.mp hcol
      cases hct : b.cell m.to'.to_idx with
      | some q =>
        simp only []
        by_cases hq : q.color = b.turn
        · rw [if_pos hq]
          exact ⟨false, rfl⟩
        · rw [if_neg hq]
          apply is_move_valid_isSome piece m b hm
          rintro ⟨hr, hc⟩
          have hidx : m.from'.to_idx = m.to'.to_idx := by
            unfold BoardPos.to_idx
            rw [hr, hc]
          rw [hidx, hct] at hcf
          have : piece = q := (Option.some.inj hcf).symm
          exact hq (this ▸ hpc)
      | none =>
        apply is_move_valid_isSome piece m b hm
        rintro ⟨hr, hc⟩
        have hidx : m.from'.to_idx = m.to'.to_idx := by
          unfold BoardPos.to_idx
          rw [hr, hc]
        rw [hidx, hct] at hcf
        exact Option.noConfusion hcf

theorem is_valid_same_cell (m : Move) (b : ChessBoard)
    (hidx : m.from'.to_idx = m.to'.to_idx) : m.is_valid b = some false := by
  unfold Move.is_valid
  cases hcf : b.cell m.from'.to_idx with
  | none => rfl
  | some piece =>
    simp only []
    by_cases hcol : piece.color ≠ b.turn
    · rw [if_pos hcol]
    · rw [if_neg hcol]
      have hct : b.cell m.to'.to_idx = some piece := by
        rw [← hidx]
        exact hcf
      simp only [hct]
      rw [if_pos (not_not.mp hcol)]

theorem is_valid_true_ne_idx (m : Move) (b : ChessBoard) (h : m.is_valid b = some true) :
    m.from'.to_idx ≠ m.to'.to_idx := by
  intro hidx
  rw [is_valid_same_cell m b hidx] at h
  exact Bool.noConfusion (Option.some.inj h)

theorem execute_total_aux (b : ChessBoard) (m : Move) (hm : m.inBounds) :
    ∃ r : Bool, ∃ b2 : ChessBoard, b.execute m = some (r, b2) ∧ (r = false → b2 = b) := by
  have hf : m.from'.to_idx < 64 := to_idx_lt _ hm.1 hm.2.1
  have ht : m.to'.to_idx < 64 := to_idx_lt _ hm.2.2.1 hm.2.2.2
  unfold ChessBoard.execute
  rw [dif_pos hf]
  by_cases hs : (b.pieces ⟨m.from'.to_idx, hf⟩).isSome = true
  · rw [if_pos hs]
    obtain ⟨v, hv⟩ := is_valid_isSome m b hm
    rw [hv]
    cases v
    · exact ⟨false, b, rfl, fun _ => rfl⟩
    · rw [dif_pos ht]
      exact ⟨true, _, rfl, fun h => nomatch h⟩
  · rw [if_neg hs]
    exact ⟨false, b, rfl, fun _ => rfl⟩

/-- C9: `from_idx(to_idx(p)) = p` for every in-bounds coordinate, `to_idx(from_idx(i)) = i`
for every index below 64, and `from_idx` returns `none` (rather than panicking) on every
index at or above 64. -/
theorem from_idx_to_idx_roundtrip :
    (∀ p : BoardPos, p.row < 8 → p.col < 8 → BoardPos.from_idx p.to_idx = some p) ∧
    (∀ i : Nat, i < 64 → (BoardPos.from_idx i).map BoardPos.to_idx = some i) ∧
    (∀ i : Nat, 64 ≤ i → BoardPos.from_idx i = none) := by
  refine ⟨?_, ?_, ?_⟩
  · intro p h1 h2
    unfold BoardPos.from_idx BoardPos.to_idx
    rw [if_neg (by omega)]
    have hr : (p.col + p.row * 8) / 8 = p.row := by omega
    have hc : (p.col + p.row * 8) % 8 = p.col := by omega
    cases p
    simp_all
  · intro i hi
    unfold BoardPos.from_idx BoardPos.to_idx
    rw [if_neg (by omega)]
    simp only [Option.map_some']
    congr 1
    omega
  · intro i hi
    unfold BoardPos.from_idx
    rw [if_pos hi]

/-- Witness for C9 at concrete inputs. -/
theorem from_idx_to_idx_roundtrip_witness :
    BoardPos.from_idx (BoardPos.to_idx { row := 3, col := 5 }) = some { row := 3, col := 5 } ∧
    (BoardPos.from_idx 37).map BoardPos.to_idx = some 37 ∧
    BoardPos.from_idx 99 = none :=
  ⟨from_idx_to_idx_roundtrip.1 { row := 3, col := 5 } (by decide) (by decide),
   from_idx_to_idx_roundtrip.2.1 37 (by decide),
   from_idx_to_idx_roundtrip.2.2 99 (by decide)⟩

/-- C7: the parsers are not panic-free. On the one-character, two-byte string
`"é"` (U+00E9), `BoardPos::parse` passes the byte-length-2 test but
`chars().nth(1).unwrap()` finds no second character and panics; likewise
`Move::parse` on the four-byte string `"éab"` panics inside its first
coordinate parse, instead of returning a parse failure. -/
theorem parse_panics_on_two_byte_char :
    BoardPos.parse [Char.ofNat 233] = PRes.panics ∧
    Move.parse [Char.ofNat 233, Char.ofNat 97, Char.ofNat 98] = PRes.panics := by
  decide

/-- Shared shape of an accepted `execute` step, with no in-bounds hypothesis
(the bounds are forced by acceptance itself). -/
theorem execute_accept_frame_aux (b : ChessBoard) (m : Move) (b' : ChessBoard)
    (hx : b.execute m = some (true, b')) :
    b'.cell m.to'.to_idx = b.cell m.from'.to_idx ∧
    b'.cell m.from'.to_idx = none ∧
    b'.turn = (match b.turn with | Color.White => Color.Black | Color.Black => Color.White) ∧
    b'.winner = b.winner ∧
    ∀ i : Fin 64, (i : Nat) ≠ m.from'.to_idx → (i : Nat) ≠ m.to'.to_idx →
      b'.pieces i = b.pieces i := by
  unfold ChessBoard.execute at hx
  by_cases hf : m.from'.to_idx < 64
  case neg =>
    rw [dif_neg hf] at hx
    exact Option.noConfusion hx
  rw [dif_pos hf] at hx
  by_cases hs : (b.pieces ⟨m.from'.to_idx, hf⟩).isSome = true
  case neg =>
    rw [if_neg hs] at hx
    exact absurd (congrArg Prod.fst (Option.some.inj hx)) (by simp)
  case pos =>
    rw [if_pos hs] at hx
    cases hv : m.is_valid b with
    | none =>
      simp only [hv] at hx
      exact Option.noConfusion hx
    | some v =>
      simp only [hv] at hx
      cases v with
      | false => exact absurd (congrArg Prod.fst (Option.some.inj hx)) (by simp)
      | true =>
        by_cases ht : m.to'.to_idx < 64
        case neg =>
          rw [dif_neg ht] at hx
          exact Option.noConfusion hx
        rw [dif_pos ht] at hx
        have hne : m.from'.to_idx ≠ m.to'.to_idx := is_valid_true_ne_idx m b hv
        have hb' : b' = ⟨Function.update (Function.update b.pieces ⟨m.to'.to_idx, ht⟩
            (b.pieces ⟨m.from'.to_idx, hf⟩)) ⟨m.from'.to_idx, hf⟩ none,
            (match b.turn with | Color.White => Color.Black | Color.Black => Color.White),
            b.winner⟩ := (congrArg Prod.snd (Option.some.inj hx)).symm
        subst hb'
        refine ⟨?_, ?_, rfl, rfl, ?_⟩
        · unfold ChessBoard.cell
          rw [dif_pos ht, dif_pos hf]
          show Function.update (Function.update b.pieces ⟨m.to'.to_idx, ht⟩
            (b.pieces ⟨m.from'.to_idx, hf⟩)) ⟨m.from'.to_idx, hf⟩ none ⟨m.to'.to_idx, ht⟩ =
            b.pieces ⟨m.from'.to_idx, hf⟩
          rw [Function.update_noteq (Fin.ne_of_val_ne (Ne.symm hne)), Function.update_same]
        · unfold ChessBoard.cell
          rw [dif_pos hf]
          show Function.update (Function.update b.pieces ⟨m.to'.to_idx, ht⟩
            (b.pieces ⟨m.from'.to_idx, hf⟩)) ⟨m.from'.to_idx, hf⟩ none ⟨m.from'.to_idx, hf⟩ = none
          rw [Function.update_same]
        · intro i hif hit
          show Function.update (Function.update b.pieces ⟨m.to'.to_idx, ht⟩
            (b.pieces ⟨m.from'.to_idx, hf⟩)) ⟨m.from'.to_idx, hf⟩ none i = b.pieces i
          rw [Function.update_noteq (Fin.ne_of_val_ne hif),
            Function.update_noteq (Fin.ne_of_val_ne hit)]

/-- C1: whenever `execute` accepts an in-bounds move, the piece value from the
source cell is written into the destination cell (capturing whatever was there),
the source cell is cleared, the turn flips, and the winner field together with
every cell other than source and destination is unchanged. (All other modelled
operations are pure and return no board, so `execute` is the only mutator.) -/
theorem execute_accept_frame (b : ChessBoard) (m : Move) (_hm : m.inBounds) (b' : ChessBoard)
    (hx : b.execute m = some (true, b')) :
    b'.cell m.to'.to_idx = b.cell m.from'.to_idx ∧
    b'.cell m.from'.to_idx = none ∧
    b'.turn = (match b.turn with | Color.White => Color.Black | Color.Black => Color.White) ∧
    b'.winner = b.winner ∧
    ∀ i : Fin 64, (i : Nat) ≠ m.from'.to_idx → (i : Nat) ≠ m.to'.to_idx →
      b'.pieces i = b.pieces i :=
  execute_accept_frame_aux b m b' hx

/-- Witness for C1: on `pawnBoard`, the accepted move e2–e3 moves the pawn from
cell 52 to cell 44, flips the turn and leaves everything else unchanged. -/
theorem execute_accept_frame_witness :
    pawnBoardAfter.cell pawnMove.to'.to_idx = pawnBoard.cell pawnMove.from'.to_idx ∧
    pawnBoardAfter.cell pawnMove.from'.to_idx = none ∧
    pawnBoardAfter.turn =
      (match pawnBoard.turn with | Color.White => Color.Black | Color.Black => Color.White) ∧
    pawnBoardAfter.winner = pawnBoard.winner ∧
    ∀ i : Fin 64, (i : Nat) ≠ pawnMove.from'.to_idx → (i : Nat) ≠ pawnMove.to'.to_idx →
      pawnBoardAfter.pieces i = pawnBoard.pieces i :=
  execute_accept_frame pawnBoard pawnMove (by decide) pawnBoardAfter rfl

/-- C2: on every in-bounds move `execute` returns exactly `true` or `false` (the
modelled panic outcome `none` never occurs), and on `false` the returned board is
the input board, unchanged in every cell, turn and winner. -/
theorem execute_boolean_exhaustive (b : ChessBoard) (m : Move) (hm : m.inBounds) :
    ∃ r : Bool, ∃ b2 : ChessBoard, b.execute m = some (r, b2) ∧ (r = false → b2 = b) :=
  execute_total_aux b m hm

/-- Witness for C2 at `pawnBoard` and the move e2–e3. -/
theorem execute_boolean_exhaustive_witness :
    ∃ r : Bool, ∃ b2 : ChessBoard,
      pawnBoard.execute pawnMove = some (r, b2) ∧ (r = false → b2 = pawnBoard) :=
  execute_boolean_exhaustive pawnBoard pawnMove (by decide)

/-- C8: an in-bounds move with equal source and destination is rejected by the
ownership/occupancy pre-checks of `is_valid` (returning `some false`, never
reaching a per-kind rule), `is_valid` never panics (`none`, which models the
Rook same-cell `panic!` and the Bishop `assert!`) on any in-bounds move, and
`execute` never aborts on any in-bounds move. -/
theorem same_cell_rejected_no_abort (b : ChessBoard) (m : Move) (hm : m.inBounds) :
    (m.from' = m.to' → m.is_valid b = some false) ∧
    (∃ v, m.is_valid b = some v) ∧ (∃ r, b.execute m = some r) := by
  refine ⟨?_, is_valid_isSome m b hm, ?_⟩
  · intro heq
    exact is_valid_same_cell m b (congrArg BoardPos.to_idx heq)
  · obtain ⟨r, b2, hx, -⟩ := execute_total_aux b m hm
    exact ⟨(r, b2), hx⟩

/-- Witness for C8 at `pawnBoard` and the degenerate move e2–e2. -/
theorem same_cell_rejected_no_abort_witness :
    (sameCellMove.from' = sameCellMove.to' → sameCellMove.is_valid pawnBoard = some false) ∧
    (∃ v, sameCellMove.is_valid pawnBoard = some v) ∧
    (∃ r, pawnBoard.execute sameCellMove = some r) :=
  same_cell_rejected_no_abort pawnBoard sameCellMove (by decide)

/-- C3: evaluation of the Bishop rule at the failing input. For a downward move
(source row below destination row) the `down_skip` term shifts the scan window by
one step: on `blockMidBoard` the move (0,0)–(2,2) is accepted although the only
strictly-between cell (1,1) is occupied, and on `blockDstBoard` the same move is
rejected although every strictly-between cell is empty (so destination occupancy
does affect the rule) — contradicting the claimed clearance behaviour, while the
spec requires exactly the strictly-between cells to be empty. -/
theorem bishopRule_down_shift_bug :
    bishopRule diagMove blockMidBoard = some true ∧
    bishopRule diagMove blockDstBoard = some false := by
  decide

/-- C5: evaluation at an input where the claimed equivalence fails. On
`blockMidBoard` the Queen rule rejects (0,0)–(2,2) (its scan finds the blocker on
the strictly-between cell (1,1)), while the Rook rule rejects it and the Bishop
rule accepts it (its shifted window misses the blocker), so
Queen = Rook ∨ Bishop is false at this input. -/
theorem queen_rook_bishop_mismatch :
    queenRule diagMove blockMidBoard = some false ∧
    rookRule diagMove blockMidBoard = some false ∧
    bishopRule diagMove blockMidBoard = some true := by
  decide

/-- C4 counterexample: a straight one-step white pawn advance e2–e3 whose
destination e3 is occupied by a black pawn is rejected by the pawn rule, where
the claim says the rule does not test destination occupancy and accepts. -/
theorem pawn_straight_rejected_on_occupied_destination :
    pawnRule Color.White pawnMove pawnBlockedBoard = some false := by
  decide

/-- C4 (amended): for every in-bounds same-column pawn move of legal direction
and distance, the pawn rule accepts iff every scanned cell is empty, and the
scanned cells are the strictly-between cells together with the destination cell
(every cell of the source's file from `min row` to `max row` except the source
row) — so destination occupancy is tested, and a straight advance onto an
occupied destination is rejected. -/
theorem pawnRule_straight_scan (b : ChessBoard) (c : Color) (m : Move) (hm : m.inBounds)
    (hcol : m.from'.col = m.to'.col)
    (hdir : match c with
      | Color.White => m.to'.row < m.from'.row
      | Color.Black => m.from'.row < m.to'.row)
    (hlen : ((m.from'.row : Int) - (m.to'.row : Int)).natAbs ≤
      (if m.from'.row = (match c with | Color.White => 6 | Color.Black => 1) then 2 else 1)) :
    pawnRule c m b = some true ↔
      ∀ r : Nat, min m.from'.row m.to'.row ≤ r → r ≤ max m.from'.row m.to'.row →
        r ≠ m.from'.row → b.cell (r * 8 + m.from'.col) = none := by
  obtain ⟨h1, h2, h3, h4⟩ := hm
  simp only [pawnRule]
  cases c with
  | White =>
    have hdir' : m.to'.row < m.from'.row := hdir
    have hlen' : ((m.from'.row : Int) - (m.to'.row : Int)).natAbs ≤
        (if m.from'.row = 6 then 2 else 1) := hlen
    rw [if_pos (decide_eq_true hdir'), if_neg (not_lt.mpr hlen'),
      if_neg (not_not_intro hcol), if_neg (by decide : ¬(Color.White = Color.Black))]
    rw [Option.some.injEq, pawnScan_iff]
    constructor
    · intro h r hr1 hr2 hr3
      have hj : r - m.to'.row < ((m.from'.row : Int) - (m.to'.row : Int)).natAbs := by omega
      have hcell := h (r - m.to'.row) hj (b.cell (r * 8 + m.from'.col)) ?_
      · exact hcell
      · rw [show (8 * min m.from'.row m.to'.row + m.from'.col + 0) + 8 * (r - m.to'.row) =
          r * 8 + m.from'.col by omega]
        exact boardList_getElem? b _ (by omega)
    · intro h j hj x hx
      rw [show (8 * min m.from'.row m.to'.row + m.from'.col + 0) + 8 * j =
        (m.to'.row + j) * 8 + m.from'.col by omega,
        boardList_getElem? b _ (by omega)] at hx
      rw [(Option.some.inj hx).symm]
      exact h (m.to'.row + j) (by omega) (by omega) (by omega)
  | Black =>
    have hdir' : m.from'.row < m.to'.row := hdir
    have hlen' : ((m.from'.row : Int) - (m.to'.row : Int)).natAbs ≤
        (if m.from'.row = 1 then 2 else 1) := hlen
    rw [if_pos (decide_eq_true hdir'), if_neg (not_lt.mpr hlen'),
      if_neg (not_not_intro hcol), if_pos (rfl : Color.Black = Color.Black)]
    rw [Option.some.injEq, pawnScan_iff]
    constructor
    · intro h r hr1 hr2 hr3
      have hj : r - m.from'.row - 1 < ((m.from'.row : Int) - (m.to'.row : Int)).natAbs := by omega
      have hcell := h (r - m.from'.row - 1) hj (b.cell (r * 8 + m.from'.col)) ?_
      · exact hcell
      · rw [show (8 * min m.from'.row m.to'.row + m.from'.col + 8) + 8 * (r - m.from'.row - 1) =
          r * 8 + m.from'.col by omega]
        exact boardList_getElem? b _ (by omega)
    · intro h j hj x hx
      rw [show (8 * min m.from'.row m.to'.row + m.from'.col + 8) + 8 * j =
        (m.from'.row + 1 + j) * 8 + m.from'.col by omega,
        boardList_getElem? b _ (by omega)] at hx
      rw [(Option.some.inj hx).symm]
      exact h (m.from'.row + 1 + j) (by omega) (by omega) (by omega)

/-- Witness for C4 (amended): the two-step advance e2–e4 on `pawnBoard` is accepted
iff the cells of rows 4 and 5 in file e are empty. -/
theorem pawnRule_straight_scan_witness :
    pawnRule Color.White ⟨⟨6, 4⟩, ⟨4, 4⟩⟩ pawnBoard = some true ↔
      ∀ r : Nat, min 6 4 ≤ r → r ≤ max 6 4 → r ≠ 6 → pawnBoard.cell (r * 8 + 4) = none :=
  pawnRule_straight_scan pawnBoard Color.White ⟨⟨6, 4⟩, ⟨4, 4⟩⟩ (by decide) rfl
    (by decide) (by decide)

/-- C6: the pawn rule rejects any move that is not strictly forward for its side
(White must decrease the row, Black must increase it); rejects any move whose row
distance exceeds 2 when starting from the side's home row (6 for White, 1 for
Black) and exceeds 1 otherwise; and accepts a column-changing move only when it
is a one-row, one-column diagonal onto a cell holding a piece of the opposing
side. -/
theorem pawnRule_direction_distance_capture (b : ChessBoard) (c : Color) (m : Move) :
    (¬(match c with
        | Color.White => m.to'.row < m.from'.row
        | Color.Black => m.from'.row < m.to'.row) → pawnRule c m b = some false) ∧
    (((m.from'.row : Int) - (m.to'.row : Int)).natAbs >
        (if m.from'.row = (match c with | Color.White => 6 | Color.Black => 1) then 2 else 1) →
      pawnRule c m b = some false) ∧
    (m.from'.col ≠ m.to'.col → pawnRule c m b = some true →
      ((m.from'.row : Int) - (m.to'.row : Int)).natAbs = 1 ∧
      ((m.from'.col : Int) - (m.to'.col : Int)).natAbs = 1 ∧
      ∃ p, b.cell (m.to'.row * 8 + m.to'.col) = some p ∧ p.color ≠ c) := by
  refine ⟨?_, ?_, ?_⟩
  · intro hdir
    simp only [pawnRule]
    cases c with
    | White =>
      have hdir' : ¬(m.to'.row < m.from'.row) := hdir
      rw [if_neg (by simp only [decide_eq_true_eq]; exact hdir')]
    | Black =>
      have hdir' : ¬(m.from'.row < m.to'.row) := hdir
      rw [if_neg (by simp only [decide_eq_true_eq]; exact hdir')]
  · intro hlen
    simp only [pawnRule]
    cases c with
    | White =>
      have hlen' : ((m.from'.row : Int) - (m.to'.row : Int)).natAbs >
          (if m.from'.row = 6 then 2 else 1) := hlen
      by_cases hd : m.to'.row < m.from'.row
      · rw [if_pos (decide_eq_true hd), if_pos hlen']
      · rw [if_neg (by simp only [decide_eq_true_eq]; exact hd)]
    | Black =>
      have hlen' : ((m.from'.row : Int) - (m.to'.row : Int)).natAbs >
          (if m.from'.row = 1 then 2 else 1) := hlen
      by_cases hd : m.from'.row < m.to'.row
      · rw [if_pos (decide_eq_true hd), if_pos hlen']
      · rw [if_neg (by simp only [decide_eq_true_eq]; exact hd)]
  · intro hne hacc
    simp only [pawnRule] at hacc
    cases c with
    | White =>
      by_cases hd : m.to'.row < m.from'.row
      · rw [if_pos (decide_eq_true hd)] at hacc
        by_cases hl : ((m.from'.row : Int) - (m.to'.row : Int)).natAbs >
            (if m.from'.row = 6 then 2 else 1)
        · rw [if_pos hl] at hacc
          exact absurd (Option.some.inj hacc) (by simp)
        · rw [if_neg hl, if_pos hne] at hacc
          by_cases h11 : ((m.from'.row : Int) - (m.to'.row : Int)).natAbs ≠ 1 ∨
              ((m.from'.col : Int) - (m.to'.col : Int)).natAbs ≠ 1
          · rw [if_pos h11] at hacc
            exact absurd (Option.some.inj hacc) (by simp)
          · rw [if_neg h11] at hacc
            push_neg at h11
            cases hat : b.cell (m.to'.row * 8 + m.to'.col) with
            | none =>
              simp only [hat] at hacc
              exact absurd (Option.some.inj hacc) (by simp)
            | some p =>
              simp only [hat] at hacc
              by_cases hpc : p.color = Color.White
              · rw [if_pos hpc] at hacc
                exact absurd (Option.some.inj hacc) (by simp)
              · exact ⟨h11.1, h11.2, p, rfl, hpc⟩
      · rw [if_neg (by simp only [decide_eq_true_eq]; exact hd)] at hacc
        exact absurd (Option.some.inj hacc) (by simp)
    | Black =>
      by_cases hd : m.from'.row < m.to'.row
      · rw [if_pos (decide_eq_true hd)] at hacc
        by_cases hl : ((m.from'.row : Int) - (m.to'.row : Int)).natAbs >
            (if m.from'.row = 1 then 2 else 1)
        · rw [if_pos hl] at hacc
          exact absurd (Option.some.inj hacc) (by simp)
        · rw [if_neg hl, if_pos hne] at hacc
          by_cases h11 : ((m.from'.row : Int) - (m.to'.row : Int)).natAbs ≠ 1 ∨
              ((m.from'.col : Int) - (m.to'.col : Int)).natAbs ≠ 1
          · rw [if_pos h11] at hacc
            exact absurd (Option.some.inj hacc) (by simp)
          · rw [if_neg h11] at hacc
            push_neg at h11
            cases hat : b.cell (m.to'.row * 8 + m.to'.col) with
            | none =>
              simp only [hat] at hacc
              exact absurd (Option.some.inj hacc) (by simp)
            | some p =>
              simp only [hat] at hacc
              by_cases hpc : p.color = Color.Black
              · rw [if_pos hpc] at hacc
                exact absurd (Option.some.inj hacc) (by simp)
              · exact ⟨h11.1, h11.2, p, rfl, hpc⟩
      · rw [if_neg (by simp only [decide_eq_true_eq]; exact hd)] at hacc
        exact absurd (Option.some.inj hacc) (by simp)

/-- Witness for C6: a backward move and an over-long move are rejected on
`pawnBoard`; the accepted diagonal e2–f3 on `captureBoard` lands on an opposing
piece. -/
theorem pawnRule_direction_distance_capture_witness :
    pawnRule Color.White backMove pawnBoard = some false ∧
    pawnRule Color.White farMove pawnBoard = some false ∧
    (((capMove.from'.row : Int) - (capMove.to'.row : Int)).natAbs = 1 ∧
      ((capMove.from'.col : Int) - (capMove.to'.col : Int)).natAbs = 1 ∧
      ∃ p, captureBoard.cell (capMove.to'.row * 8 + capMove.to'.col) = some p ∧
        p.color ≠ Color.White) :=
  ⟨(pawnRule_direction_distance_capture pawnBoard Color.White backMove).1 (by decide),
   (pawnRule_direction_distance_capture pawnBoard Color.White farMove).2.1 (by decide),
   (pawnRule_direction_distance_capture captureBoard Color.White capMove).2.2 (by decide)
     (by decide)⟩

theorem eraseP_congr_isNone {x1 x2 : Option Piece} (h : eraseP x1 = eraseP x2) :
    x1.isNone = x2.isNone := by
  cases x1 <;> cases x2 <;> simp_all [eraseP]

theorem mask_congr (b1 b2 : ChessBoard)
    (hp : ∀ i : Fin 64, eraseP (b1.pieces i) = eraseP (b2.pieces i)) :
    (boardList b1).map Option.isNone = (boardList b2).map Option.isNone := by
  unfold boardList
  apply List.ext_getElem?_iff.mpr
  intro i
  rw [List.getElem?_map, List.getElem?_map, List.getElem?_ofFn, List.getElem?_ofFn]
  unfold List.ofFnNthVal
  by_cases h : i < 64
  · rw [dif_pos h, dif_pos h]
    simp only [Option.map_some']
    rw [eraseP_congr_isNone (hp ⟨i, h⟩)]
  · rw [dif_neg h, dif_neg h]

theorem stepBy_map (n : Nat) (hn : 1 ≤ n) (f : α → β) (l : List α) :
    stepBy n (l.map f) = (stepBy n l).map f := by
  apply List.ext_getElem?_iff.mpr
  intro i
  rw [stepBy_getElem? n hn, List.getElem?_map, List.getElem?_map, stepBy_getElem? n hn]

theorem all_map' (f : α → β) (p : β → Bool) (l : List α) :
    (l.map f).all p = l.all (p ∘ f) := by
  induction l with
  | nil => rfl
  | cons a l ih => simp [List.all_cons, ih]

theorem plainScan_congr (b1 b2 : ChessBoard)
    (hmask : (boardList b1).map Option.isNone = (boardList b2).map Option.isNone)
    (s t : Nat) :
    (((boardList b1).drop s).take t).all Option.isNone =
      (((boardList b2).drop s).take t).all Option.isNone := by
  have key : ∀ L : List (Option Piece),
      ((L.drop s).take t).all Option.isNone =
        (((L.map Option.isNone).drop s).take t).all id := by
    intro L
    rw [← List.map_drop, ← List.map_take, all_map']
    rfl
  rw [key, key, hmask]

theorem slideScan_congr (k : Nat) (hk : 1 ≤ k) (b1 b2 : ChessBoard)
    (hmask : (boardList b1).map Option.isNone = (boardList b2).map Option.isNone)
    (s t : Nat) :
    (stepBy k (((boardList b1).drop s).take t)).all Option.isNone =
      (stepBy k (((boardList b2).drop s).take t)).all Option.isNone := by
  have key : ∀ L : List (Option Piece),
      (stepBy k ((L.drop s).take t)).all Option.isNone =
        (stepBy k (((L.map Option.isNone).drop s).take t)).all id := by
    intro L
    rw [← List.map_drop, ← List.map_take, stepBy_map k hk, all_map']
    rfl
  rw [key, key, hmask]

theorem pawnScan_congr (b1 b2 : ChessBoard)
    (hmask : (boardList b1).map Option.isNone = (boardList b2).map Option.isNone)
    (s t : Nat) :
    ((stepBy 8 ((boardList b1).drop s)).take t).all Option.isNone =
      ((stepBy 8 ((boardList b2).drop s)).take t).all Option.isNone := by
  have key : ∀ L : List (Option Piece),
      ((stepBy 8 (L.drop s)).take t).all Option.isNone =
        ((stepBy 8 ((L.map Option.isNone).drop s)).take t).all id := by
    intro L
    rw [← List.map_drop, stepBy_map 8 (by omega), ← List.map_take, all_map']
    rfl
  rw [key, key, hmask]

theorem cell_eraseP_congr (b1 b2 : ChessBoard)
    (hp : ∀ i : Fin 64, eraseP (b1.pieces i) = eraseP (b2.pieces i)) (i : Nat) :
    eraseP (b1.cell i) = eraseP (b2.cell i) := by
  unfold ChessBoard.cell
  by_cases h : i < 64
  · rw [dif_pos h, dif_pos h]
    exact hp ⟨i, h⟩
  · rw [dif_neg h, dif_neg h]

theorem pawnRule_congr (c : Color) (m : Move) (b1 b2 : ChessBoard)
    (hp : ∀ i : Fin 64, eraseP (b1.pieces i) = eraseP (b2.pieces i)) :
    pawnRule c m b1 = pawnRule c m b2 := by
  have hmask := mask_congr b1 b2 hp
  have hcell := cell_eraseP_congr b1 b2 hp (m.to'.row * 8 + m.to'.col)
  simp only [pawnRule]
  split_ifs <;>
    first
      | rfl
      | exact congrArg some (pawnScan_congr b1 b2 hmask _ _)
      | (cases hx1 : b1.cell (m.to'.row * 8 + m.to'.col) with
          | none =>
            cases hx2 : b2.cell (m.to'.row * 8 + m.to'.col) with
            | none => rfl
            | some q =>
              rw [hx1, hx2] at hcell
              exact absurd hcell (by simp [eraseP])
          | some p =>
            cases hx2 : b2.cell (m.to'.row * 8 + m.to'.col) with
            | none =>
              rw [hx1, hx2] at hcell
              exact absurd hcell (by simp [eraseP])
            | some q =>
              rw [hx1, hx2] at hcell
              simp only [eraseP, Option.map_some', Option.some.injEq, Prod.mk.injEq] at hcell
              simp only [hcell.1])

theorem sign_mul_sign_add_eight_pos (a b : Int) : 1 ≤ (a.sign * b.sign + 8).toNat := by
  have ha : a.sign = -1 ∨ a.sign = 0 ∨ a.sign = 1 := by
    rcases a with (_ | n) | n
    · right; left; rfl
    · right; right; rfl
    · left; rfl
  have hb : b.sign = -1 ∨ b.sign = 0 ∨ b.sign = 1 := by
    rcases b with (_ | n) | n
    · right; left; rfl
    · right; right; rfl
    · left; rfl
  rcases ha with h | h | h <;> rcases hb with h' | h' | h' <;> rw [h, h'] <;> decide

theorem eight_add_sign_mul_sign_pos (a b : Int) : 1 ≤ (8 + a.sign * b.sign).toNat := by
  have ha : a.sign = -1 ∨ a.sign = 0 ∨ a.sign = 1 := by
    rcases a with (_ | n) | n
    · right; left; rfl
    · right; right; rfl
    · left; rfl
  have hb : b.sign = -1 ∨ b.sign = 0 ∨ b.sign = 1 := by
    rcases b with (_ | n) | n
    · right; left; rfl
    · right; right; rfl
    · left; rfl
  rcases ha with h | h | h <;> rcases hb with h' | h' | h' <;> rw [h, h'] <;> decide

theorem rookRule_congr (m : Move) (b1 b2 : ChessBoard)
    (hmask : (boardList b1).map Option.isNone = (boardList b2).map Option.isNone) :
    rookRule m b1 = rookRule m b2 := by
  simp only [rookRule]
  split_ifs <;>
    first
      | rfl
      | exact congrArg some (plainScan_congr b1 b2 hmask _ _)
      | exact congrArg some (slideScan_congr 8 (by omega) b1 b2 hmask _ _)

theorem bishopRule_congr (m : Move) (b1 b2 : ChessBoard)
    (hmask : (boardList b1).map Option.isNone = (boardList b2).map Option.isNone) :
    bishopRule m b1 = bishopRule m b2 := by
  simp only [bishopRule]
  split_ifs <;>
    first
      | rfl
      | exact congrArg some
          (slideScan_congr _ (sign_mul_sign_add_eight_pos _ _) b1 b2 hmask _ _)

theorem queenRule_congr (m : Move) (b1 b2 : ChessBoard)
    (hmask : (boardList b1).map Option.isNone = (boardList b2).map Option.isNone) :
    queenRule m b1 = queenRule m b2 := by
  simp only [queenRule]
  split_ifs <;>
    first
      | rfl
      | exact congrArg some (slideScan_congr 8 (by omega) b1 b2 hmask _ _)
      | exact congrArg some (slideScan_congr 1 (by omega) b1 b2 hmask _ _)
      | exact congrArg some
          (slideScan_congr _ (eight_add_sign_mul_sign_pos _ _) b1 b2 hmask _ _)

theorem is_move_valid_congr (p1 p2 : Piece) (m : Move) (b1 b2 : ChessBoard)
    (hp : ∀ i : Fin 64, eraseP (b1.pieces i) = eraseP (b2.pieces i))
    (hc : p1.color = p2.color) (hk : p1.piece = p2.piece) :
    p1.is_move_valid m b1 = p2.is_move_valid m b2 := by
  have hmask := mask_congr b1 b2 hp
  unfold Piece.is_move_valid
  rw [← hk, ← hc]
  cases p1.piece
  · exact pawnRule_congr p1.color m b1 b2 hp
  · exact bishopRule_congr m b1 b2 hmask
  · rfl
  · exact rookRule_congr m b1 b2 hmask
  · exact queenRule_congr m b1 b2 hmask
  · rfl

theorem is_valid_congr (m : Move) (b1 b2 : ChessBoard)
    (hp : ∀ i : Fin 64, eraseP (b1.pieces i) = eraseP (b2.pieces i))
    (ht : b1.turn = b2.turn) :
    m.is_valid b1 = m.is_valid b2 := by
  have hcf := cell_eraseP_congr b1 b2 hp m.from'.to_idx
  have hct := cell_eraseP_congr b1 b2 hp m.to'.to_idx
  unfold Move.is_valid
  cases h1 : b1.cell m.from'.to_idx with
  | none =>
    cases h2 : b2.cell m.from'.to_idx with
    | none => rfl
    | some q =>
      rw [h1, h2] at hcf
      exact absurd hcf (by simp [eraseP])
  | some p =>
    cases h2 : b2.cell m.from'.to_idx with
    | none =>
      rw [h1, h2] at hcf
      exact absurd hcf (by simp [eraseP])
    | some q =>
      rw [h1, h2] at hcf
      simp only [eraseP, Option.map_some', Option.some.injEq, Prod.mk.injEq] at hcf
      have hpq := hcf
      simp only []
      rw [← ht, ← hpq.1]
      by_cases hcol : p.color ≠ b1.turn
      · rw [if_pos hcol, if_pos hcol]
      · rw [if_neg hcol, if_neg hcol]
        cases h3 : b1.cell m.to'.to_idx with
        | none =>
          cases h4 : b2.cell m.to'.to_idx with
          | none => exact is_move_valid_congr p q m b1 b2 hp hpq.1 hpq.2
          | some s =>
            rw [h3, h4] at hct
            exact absurd hct (by simp [eraseP])
        | some r =>
          cases h4 : b2.cell m.to'.to_idx with
          | none =>
            rw [h3, h4] at hct
            exact absurd hct (by simp [eraseP])
          | some s =>
            rw [h3, h4] at hct
            simp only [eraseP, Option.map_some', Option.some.injEq, Prod.mk.injEq] at hct
            have hrs := hct
            simp only []
            rw [← hrs.1]
            by_cases hrt : r.color = b1.turn
            · rw [if_pos hrt, if_pos hrt]
            · rw [if_neg hrt, if_neg hrt]
              exact is_move_valid_congr p q m b1 b2 hp hpq.1 hpq.2

theorem obs_congr (b1 b2 : ChessBoard)
    (hp : ∀ i : Fin 64, eraseP (b1.pieces i) = eraseP (b2.pieces i))
    (ht : b1.turn = b2.turn) (hw : b1.winner = b2.winner) : b1.obs = b2.obs := by
  unfold ChessBoard.obs
  simp only [Prod.mk.injEq]
  exact ⟨funext (fun i => hp i), ht, hw⟩

theorem execute_obs_congr (m : Move) (b1 b2 : ChessBoard)
    (hp : ∀ i : Fin 64, eraseP (b1.pieces i) = eraseP (b2.pieces i))
    (ht : b1.turn = b2.turn) (hw : b1.winner = b2.winner) :
    (b1.execute m).map (fun rb => (rb.1, rb.2.obs)) =
      (b2.execute m).map (fun rb => (rb.1, rb.2.obs)) := by
  unfold ChessBoard.execute
  by_cases hf : m.from'.to_idx < 64
  case neg =>
    rw [dif_neg hf, dif_neg hf]
  case pos =>
    rw [dif_pos hf, dif_pos hf]
    have hss : (b1.pieces ⟨m.from'.to_idx, hf⟩).isSome =
        (b2.pieces ⟨m.from'.to_idx, hf⟩).isSome := by
      have h := eraseP_congr_isNone (hp ⟨m.from'.to_idx, hf⟩)
      cases hx1 : b1.pieces ⟨m.from'.to_idx, hf⟩ <;>
        cases hx2 : b2.pieces ⟨m.from'.to_idx, hf⟩ <;> simp_all
    by_cases hs : (b1.pieces ⟨m.from'.to_idx, hf⟩).isSome = true
    case neg =>
      rw [if_neg hs, if_neg (fun hh => hs (by rw [hss]; exact hh))]
      simp only [Option.map_some']
      rw [obs_congr b1 b2 hp ht hw]
    case pos =>
      rw [if_pos hs, if_pos (by rw [← hss]; exact hs)]
      rw [is_valid_congr m b1 b2 hp ht]
      cases hv : m.is_valid b2 with
      | none => rfl
      | some v =>
        cases v
        · simp only [Option.map_some']
          rw [obs_congr b1 b2 hp ht hw]
        · by_cases htb : m.to'.to_idx < 64
          case neg =>
            rw [dif_neg htb, dif_neg htb]
          case pos =>
            rw [dif_pos htb, dif_pos htb]
            simp only [Option.map_some', Option.some.injEq, Prod.mk.injEq, true_and]
            unfold ChessBoard.obs
            simp only [Prod.mk.injEq]
            refine ⟨funext (fun i => ?_), by rw [ht], hw⟩
            show eraseP (Function.update (Function.update b1.pieces ⟨m.to'.to_idx, htb⟩
                (b1.pieces ⟨m.from'.to_idx, hf⟩)) ⟨m.from'.to_idx, hf⟩ none i) =
              eraseP (Function.update (Function.update b2.pieces ⟨m.to'.to_idx, htb⟩
                (b2.pieces ⟨m.from'.to_idx, hf⟩)) ⟨m.from'.to_idx, hf⟩ none i)
            by_cases hif : i = ⟨m.from'.to_idx, hf⟩
            · rw [hif, Function.update_same, Function.update_same]
            · rw [Function.update_noteq hif, Function.update_noteq hif]
              by_cases hit : i = ⟨m.to'.to_idx, htb⟩
              · rw [hit, Function.update_same, Function.update_same]
                exact hp ⟨m.from'.to_idx, hf⟩
              · rw [Function.update_noteq hit, Function.update_noteq hit]
                exact hp i

/-- C10: the `pos` field stored inside pieces never influences any public result:
for two boards that agree except for stored `pos` fields (same per-cell occupancy
with the same side and kind, same turn, same winner), `is_valid` returns the same
answer for every move and `execute` performs the same observable cell/turn/winner
transformation; moreover an accepted `execute` writes the source cell's piece
value — its stored `pos` included — unchanged into the destination, so stored
positions can disagree with the occupied cell without changing behaviour. -/
theorem pos_field_irrelevant (b1 b2 : ChessBoard) (m : Move)
    (hp : ∀ i : Fin 64, eraseP (b1.pieces i) = eraseP (b2.pieces i))
    (ht : b1.turn = b2.turn) (hw : b1.winner = b2.winner) :
    m.is_valid b1 = m.is_valid b2 ∧
    (b1.execute m).map (fun rb => (rb.1, rb.2.obs)) =
      (b2.execute m).map (fun rb => (rb.1, rb.2.obs)) ∧
    (∀ b1' : ChessBoard, b1.execute m = some (true, b1') →
      b1'.cell m.to'.to_idx = b1.cell m.from'.to_idx) :=
  ⟨is_valid_congr m b1 b2 hp ht, execute_obs_congr m b1 b2 hp ht hw,
   fun b1' hx => (execute_accept_frame_aux b1 m b1' hx).1⟩

/-- Witness for C10: `rookPosBoard` and `rookPosBoard'` differ only in the rook's
stored `pos` ((0,0) versus the wrong (7,7)) and behave identically. -/
theorem pos_field_irrelevant_witness :
    (rookMove.is_valid rookPosBoard = rookMove.is_valid rookPosBoard') ∧
    ((rookPosBoard.execute rookMove).map (fun rb => (rb.1, rb.2.obs)) =
      (rookPosBoard'.execute rookMove).map (fun rb => (rb.1, rb.2.obs))) ∧
    (∀ b1' : ChessBoard, rookPosBoard.execute rookMove = some (true, b1') →
      b1'.cell rookMove.to'.to_idx = rookPosBoard.cell rookMove.from'.to_idx) :=
  pos_field_irrelevant rookPosBoard rookPosBoard' rookMove (by decide) rfl rfl

end Chess
